import Mathlib

/-!
Shallow embedding of the beautiful-atoms packaging pipeline
(`scripts/build_extension.py`) and the dynamic import proxy
(`batoms_proxy/batoms/__init__.py`).

File systems are modelled explicitly: a directory's contents are an
association list from file name to file content; the directory tree used
by `clear_dirs` is a set of component paths.  Fallible Python code is
modelled with `Except String`.
-/

namespace BuildExt

/-- `a` is an initial segment of `b`, on character lists. -/
def leadsChar : List Char → List Char → Bool
  | [], _ => true
  | _ :: _, [] => false
  | a :: as, b :: bs => a = b && leadsChar as bs

/-- Python `s.startswith(t)`. -/
def strStartsWith (s t : String) : Bool :=
  leadsChar t.data s.data

/-- Python `s.endswith(t)`. -/
def strEndsWith (s t : String) : Bool :=
  leadsChar t.data.reverse s.data.reverse

/-- Fuelled worker for `strSplitOn`: scan left to right, cutting at each
non-overlapping occurrence of the (nonempty) separator. -/
def splitOnAux : Nat → List Char → List Char → List Char → List (List Char)
  | 0, _, _, cur => [cur.reverse]
  | fuel + 1, s, sep, cur =>
    match s with
    | [] => [cur.reverse]
    | c :: rest =>
      if leadsChar sep s then
        cur.reverse :: splitOnAux fuel (s.drop sep.length) sep []
      else
        splitOnAux fuel rest sep (c :: cur)

/-- Python `s.split(sep)` for a nonempty separator. -/
def strSplitOn (s sep : String) : List String :=
  (splitOnAux (s.data.length + 1) s.data sep.data []).map (fun l => String.mk l)

/-- Embeds `get_platform_string(connector)`: maps the host
`(platform.system(), platform.machine())` pair to the Blender platform
identifier built with the given connector character. -/
def get_platform_string (system machine connector : String) : String :=
  if system = "Linux" && machine = "x86_64" then
    "linux" ++ connector ++ "x64"
  else if system = "Darwin" then
    if machine = "x86_64" then "macos" ++ connector ++ "x64"
    else "macos" ++ connector ++ "arm64"
  else if system = "Windows" || system = "Microsoft" then
    "windows" ++ connector ++ "x64"
  else
    "unsupported"

/-- The packaging-tool family excluded from the dependency snapshot
(`{"pip", "wheel", "setuptools", "distribute"}` in the source). -/
def excludedPackages : List String := ["pip", "wheel", "setuptools", "distribute"]

/-- Python dict assignment `d[k] = v` on an insertion-ordered association
list: overwrite in place when the key exists, append otherwise. -/
def dictInsert (d : List (String × String)) (k v : String) : List (String × String) :=
  if d.any (fun p => p.1 = k) then
    d.map (fun p => if p.1 = k then (k, v) else p)
  else d ++ [(k, v)]

/-- Loop body of `get_installed_packages`: each freeze line is split on
`==` (a malformed line makes the tuple unpacking fail), and names outside
the packaging-tool family are inserted into the dict. -/
def getInstalledAux : List String → List (String × String) →
    Except String (List (String × String))
  | [], d => .ok d
  | line :: rest, d =>
    match strSplitOn line "==" with
    | [name, ver] =>
      if name ∈ excludedPackages then getInstalledAux rest d
      else getInstalledAux rest (dictInsert d name ver)
    | _ => .error "ValueError: cannot unpack freeze line"

/-- Embeds `get_installed_packages()`, as a function of the lines produced
by `pip freeze` for Blender's site-packages. -/
def get_installed_packages (freezeLines : List String) :
    Except String (List (String × String)) :=
  getInstalledAux freezeLines []

/-- A TOML document as loaded by `toml.load`: strings, arrays and
insertion-ordered tables. -/
inductive Toml where
  | str : String → Toml
  | arr : List Toml → Toml
  | table : List (String × Toml) → Toml

/-- Key lookup in a table (`d.get(k)` / `k in d`). -/
def lookupA : List (String × Toml) → String → Option Toml
  | [], _ => none
  | (k, v) :: rest, key => if k = key then some v else lookupA rest key

/-- Python dict assignment `d[k] = v` for TOML tables: overwrite in place
when the key exists, append otherwise. -/
def setA : List (String × Toml) → String → Toml → List (String × Toml)
  | [], key, v => [(key, v)]
  | (k, w) :: rest, key, v =>
    if k = key then (k, v) :: rest else (k, w) :: setA rest key v

/-- Follow a path of keys through nested tables. -/
def lookupPath : Toml → List String → Option Toml
  | t, [] => some t
  | Toml.table kvs, k :: rest =>
    match lookupA kvs k with
    | some v => lookupPath v rest
    | none => none
  | _, _ :: _ => none

/-- The `"name==version"` pin strings derived from a package snapshot. -/
def pkgPins (pkgs : List (String × String)) : List Toml :=
  pkgs.map (fun p => Toml.str (p.1 ++ "==" ++ p.2))

/-- The key path of the rewritten optional-dependency group. -/
def depGroupPath : List String := ["project", "optional-dependencies", "blender-extension"]

/-- Whether `"blender-extension" in pyproject.get("project", {}).get("optional-dependencies", {})`
holds for a loaded document. -/
def hasGroup (doc : Toml) : Bool :=
  match doc with
  | Toml.table kvs =>
    match (lookupA kvs "project").getD (Toml.table []) with
    | Toml.table projKvs =>
      match (lookupA projKvs "optional-dependencies").getD (Toml.table []) with
      | Toml.table optKvs => (lookupA optKvs "blender-extension").isSome
      | _ => false
    | _ => false
  | _ => false

/-- Embeds `generate_updated_pyproject`: check that the
`blender-extension` optional-dependency group exists (raising `ValueError`
otherwise), then assign the pin list to
`pyproject["project"]["optional-dependencies"]["blender-extension"]`. -/
def generate_updated_pyproject (doc : Toml) (pkgs : List (String × String)) :
    Except String Toml :=
  match doc with
  | Toml.table kvs =>
    match (lookupA kvs "project").getD (Toml.table []) with
    | Toml.table projKvs =>
      match (lookupA projKvs "optional-dependencies").getD (Toml.table []) with
      | Toml.table optKvs =>
        if (lookupA optKvs "blender-extension").isSome then
          .ok (Toml.table (setA kvs "project"
            (Toml.table (setA projKvs "optional-dependencies"
              (Toml.table (setA optKvs "blender-extension"
                (Toml.arr (pkgPins pkgs))))))))
        else
          .error "ValueError: blender-extension dependency not found in pyproject.toml"
      | _ => .error "AttributeError: optional-dependencies value is not a table"
    | _ => .error "AttributeError: project value is not a table"
  | _ => .error "AttributeError: document is not a table"

/-- Contents of a directory: file names with their contents. -/
abbrev DirFiles := List (String × String)

/-- The `*.whl` entries of a directory (`dir.glob("*.whl")`). -/
def whlFiles (d : DirFiles) : DirFiles :=
  d.filter (fun f => strEndsWith f.1 ".whl")

/-- Whether a file of that name exists in the directory. -/
def hasFile (d : DirFiles) (name : String) : Bool :=
  d.any (fun f => f.1 = name)

/-- Content of the named file (first entry wins, as on a real directory
where names are unique). -/
def lookupFile : DirFiles → String → Option String
  | [], _ => none
  | f :: rest, name => if f.1 = name then some f.2 else lookupFile rest name

/-- Copy loop of `merge_wheels` for one extra directory: each `*.whl` file
is copied into the primary directory unless a file of that name already
exists there. -/
def mergeFrom (primary : DirFiles) (extra : DirFiles) : DirFiles :=
  (whlFiles extra).foldl
    (fun acc w => if hasFile acc w.1 then acc else acc ++ [w]) primary

/-- First loop of `merge_wheels`: fail on the first extra directory that
does not exist (`None` models a missing directory). -/
def checkExists : List (Option DirFiles) → Except String (List DirFiles)
  | [] => .ok []
  | none :: _ => .error "FileNotFoundError: extra wheels directory does not exist"
  | some d :: rest => (checkExists rest).map (fun ds => d :: ds)

/-- Second loop of `merge_wheels`: every extra directory must hold the
same number of `*.whl` files as the primary directory. -/
def checkCounts (n : Nat) : List DirFiles → Except String Unit
  | [] => .ok ()
  | d :: rest =>
    if (whlFiles d).length ≠ n then
      .error "ValueError: wheel count mismatch"
    else checkCounts n rest

/-- Embeds `merge_wheels`: existence check, count check, then the copy
loops.  The copy loops run only after both checks pass, so a failing run
returns before any file is copied. -/
def merge_wheels (primary : DirFiles) (extras : List (Option DirFiles)) :
    Except String DirFiles :=
  match checkExists extras with
  | .error e => .error e
  | .ok ds =>
    match checkCounts (whlFiles primary).length ds with
    | .error e => .error e
    | .ok _ => .ok (ds.foldl mergeFrom primary)

/-- A file-system path, as its list of components. -/
abbrev FsPath := List String

/-- The set of existing paths (directories and files), as a list with
membership semantics. -/
abbrev Fs := List FsPath

/-- `a` is an initial segment of `b` (so the path `a` is `b` itself or an
ancestor of `b`). -/
def leadsTo : List String → List String → Bool
  | [], _ => true
  | _ :: _, [] => false
  | a :: as, b :: bs => a = b && leadsTo as bs

/-- The nonempty initial segments of a path: the directories created by
`mkdir(parents=True)`. -/
def initsNE (p : FsPath) : List FsPath :=
  (List.range p.length).map (fun i => p.take (i + 1))

/-- Loop body of `clear_dirs` for one directory: if the directory exists,
`shutil.rmtree` removes it with everything below it; then
`mkdir(parents=True, exist_ok=True)` creates it together with its
ancestors. -/
def clearOne (fs : Fs) (d : FsPath) : Fs :=
  (if fs.any (fun p => p = d) then fs.filter (fun p => !(leadsTo d p)) else fs)
    ++ initsNE d

/-- Embeds `clear_dirs(*dirs)`. -/
def clear_dirs (fs : Fs) (dirs : List FsPath) : Fs :=
  dirs.foldl clearOne fs

/-- A directory is empty when no strictly longer path extends it. -/
def dirEmpty (fs : Fs) (d : FsPath) : Bool :=
  fs.all (fun p => p = d || !(leadsTo d p))

/-- A well-formed file system: every nonempty ancestor of an existing
path exists. -/
def FsClosed (fs : Fs) : Prop :=
  ∀ p ∈ fs, ∀ q, leadsTo q p = true → q ≠ [] → q ∈ fs

/-- One entry of Blender's add-on registry: its importable module name and
the `loaded_state` flag reported by `addon_utils.check`. -/
structure Addon where
  name : String
  loaded_state : Bool

/-- Embeds `_BatomsProxy._find_extension_module`: error when the registry
is unavailable, collect the enabled modules whose name ends in
`.batoms`, and demand exactly one. -/
def find_extension_module (addons : List Addon) : Except String String :=
  if addons.isEmpty then
    .error "ImportError: Blender extension system is unavailable"
  else
    match (addons.filter
        (fun a => strEndsWith a.name ".batoms" && a.loaded_state)).map Addon.name with
    | [] => .error "ImportError: no extension ending with batoms is enabled in Blender"
    | [m] => .ok m
    | _ => .error "ImportError: multiple batoms extensions detected"

/-- Embeds `_BatomsProxy._load_module`: the cached module short-circuits,
otherwise the registry is searched and the result cached. -/
def load_module (cached : Option String) (addons : List Addon) :
    Except String (Option String) :=
  match cached with
  | some m => .ok (some m)
  | none => (find_extension_module addons).map some

/-- The parsed command-line options of `build_extension.py`. -/
structure Args where
  repo_root : String
  pyproject : String
  manifest : String
  build_dir : Option String
  export_dir : Option String
  index_url : Option String
  extra_wheels : Option (List String)
  only_compress_wheels : Bool
deriving DecidableEq

/-- The argparse defaults. -/
def defaultArgs : Args :=
  ⟨".", "pyproject.toml", "blender_manifest.toml", none, none, none, none, false⟩

/-- `nargs` values of `--extra-wheels`: consume arguments until the next
option token. -/
def takeValues (l : List String) : List String :=
  l.takeWhile (fun s => !(strStartsWith s "-"))

/-- Fuelled embedding of the argparse option loop over the declared
options of `build_extension.py`; `none` models an argparse parse error. -/
def parseAux : Nat → List String → Args → Option Args
  | 0, _, _ => none
  | _ + 1, [], a => some a
  | fuel + 1, tok :: rest, a =>
    if tok = "--repo-root" then
      match rest with
      | v :: rest2 => parseAux fuel rest2 { a with repo_root := v }
      | [] => none
    else if tok = "--pyproject" then
      match rest with
      | v :: rest2 => parseAux fuel rest2 { a with pyproject := v }
      | [] => none
    else if tok = "--manifest" then
      match rest with
      | v :: rest2 => parseAux fuel rest2 { a with manifest := v }
      | [] => none
    else if tok = "--build-dir" then
      match rest with
      | v :: rest2 => parseAux fuel rest2 { a with build_dir := some v }
      | [] => none
    else if tok = "--export-dir" then
      match rest with
      | v :: rest2 => parseAux fuel rest2 { a with export_dir := some v }
      | [] => none
    else if tok = "--index-url" || tok = "-i" then
      match rest with
      | v :: rest2 => parseAux fuel rest2 { a with index_url := some v }
      | [] => none
    else if tok = "--extra-wheels" then
      parseAux fuel (rest.drop (takeValues rest).length)
        { a with extra_wheels := some (takeValues rest) }
    else if tok = "--only-compress-wheels" || tok = "-z" then
      parseAux fuel rest { a with only_compress_wheels := true }
    else none

/-- Embeds `parser.parse_args(script_args)`. -/
def parse_args (l : List String) : Option Args :=
  parseAux (l.length + 1) l defaultArgs

/-- Embeds `sys.argv[sys.argv.index("--") + 1 :] if "--" in sys.argv else []`. -/
def script_args (argv : List String) : List String :=
  if "--" ∈ argv then argv.drop (argv.indexOf "--" + 1) else []

/-- The observable build stages of a `main` run. -/
inductive Ev where
  | clearDirs
  | copySource
  | buildWheels
  | compressWheels
  | updateManifest
  | buildExt
deriving DecidableEq

/-- The host environment a `main` run executes in: the platform, whether
the source tree exists, the wheels the pip subprocess produces, and the
contents of any directory named on the command line. -/
structure Env where
  system : String
  machine : String
  srcExists : Bool
  builtWheels : DirFiles
  dirContents : String → Option DirFiles

/-- The file-system outcome of a `main` run: the final contents of the
build wheel directory and of the export directory (each export entry is an
archive name with the files archived inside it). -/
structure PipeState where
  wheels : DirFiles
  exports : List (String × DirFiles)
deriving DecidableEq

/-- The archive name used by `compress_wheels`
(`batoms-wheels-{get_platform_string(connector="_")}.zip`). -/
def zipName (env : Env) : String :=
  "batoms-wheels-" ++ get_platform_string env.system env.machine "_" ++ ".zip"

/-- Embeds `compress_wheels`: error when the wheel directory does not
exist, otherwise archive its whole contents under the platform zip name. -/
def compress_wheels (env : Env) (wheelsDir : Option DirFiles) :
    Except String (String × DirFiles) :=
  match wheelsDir with
  | none => .error "FileNotFoundError: No wheels found in build directory."
  | some files => .ok (zipName env, files)

/-- Embeds the `try` block of `main`, recording the build stages that ran
(`clear_dirs`; `copy_source_code`; `build_wheels`, whose tail merges the
extra wheels; then either the compress-only branch with its usage check,
or the manifest update and the host assembler). -/
def runMain (env : Env) (a : Args) : List Ev × Except String PipeState :=
  if env.srcExists = false then
    ([Ev.clearDirs], .error "FileNotFoundError: source directory does not exist")
  else
    match merge_wheels env.builtWheels
        ((a.extra_wheels.getD []).map env.dirContents) with
    | .error e => ([Ev.clearDirs, Ev.copySource, Ev.buildWheels], .error e)
    | .ok wheels =>
      if a.only_compress_wheels then
        if (a.extra_wheels.getD []).length > 0 then
          ([Ev.clearDirs, Ev.copySource, Ev.buildWheels],
            .error "ValueError: only_compress_wheels should only be performed when no extra wheels are provided.")
        else
          match compress_wheels env (some wheels) with
          | .error e => ([Ev.clearDirs, Ev.copySource, Ev.buildWheels], .error e)
          | .ok z =>
            ([Ev.clearDirs, Ev.copySource, Ev.buildWheels, Ev.compressWheels],
              .ok ⟨wheels, [z]⟩)
      else
        ([Ev.clearDirs, Ev.copySource, Ev.buildWheels, Ev.updateManifest, Ev.buildExt],
          .ok ⟨wheels, []⟩)

/-- The invariant maintained for each already processed directory: it
exists and has no strict descendant. -/
def GoodDir (fs : Fs) (d : FsPath) : Prop :=
  d ∈ fs ∧ ∀ p ∈ fs, leadsTo d p = true → p = d

/-! ## Supporting lemmas -/

theorem mem_dictInsert {d : List (String × String)} {k v : String}
    {p : String × String} (hp : p ∈ dictInsert d k v) : p = (k, v) ∨ p ∈ d := by
  unfold dictInsert at hp
  split at hp
  · obtain ⟨q, hq, hmap⟩ := List.mem_map.mp hp
    by_cases h : q.1 = k
    · left; rw [if_pos h] at hmap; exact hmap.symm
    · right; rw [if_neg h] at hmap; exact hmap ▸ hq
  · rcases List.mem_append.mp hp with h | h
    · exact Or.inr h
    · exact Or.inl (List.mem_singleton.mp h)

theorem getInstalledAux_excludes (lines : List String) :
    ∀ d, (∀ p ∈ d, p.1 ∉ excludedPackages) →
    ∀ r, getInstalledAux lines d = .ok r → ∀ p ∈ r, p.1 ∉ excludedPackages := by
  induction lines with
  | nil =>
    intro d hd r hr
    simp only [getInstalledAux] at hr
    cases hr
    exact hd
  | cons line rest ih =>
    intro d hd r hr
    simp only [getInstalledAux] at hr
    split at hr
    · split at hr
      · exact ih d hd r hr
      · rename_i name ver hsplit hname
        refine ih _ ?_ r hr
        intro p hp
        rcases mem_dictInsert hp with h | h
        · rw [h]; exact hname
        · exact hd p h
    · cases hr

/-! ## C2, C6, C8, C10 claims -/

/-- C2: the claim maps every combination outside the four listed pairs to
`"unsupported"`, but the code sends `(Darwin, powerpc)` to
`"macos-arm64"`. -/
theorem get_platform_string_claim_false :
    get_platform_string "Darwin" "powerpc" "-" = "macos-arm64" ∧
    "macos-arm64" ≠ "unsupported" := by
  constructor
  · decide
  · decide

/-- C2 (amended): `(Linux, x86_64)` yields `linux-x64`; `(Darwin, x86_64)`
yields `macos-x64`; `(Darwin, m)` for every other machine yields
`macos-arm64`; `Windows` and `Microsoft` with any machine yield
`windows-x64`; `(Linux, m)` for `m ≠ x86_64` and every other system
yield `"unsupported"`; the connector replaces the `-`. -/
theorem get_platform_string_spec (system machine connector : String) :
    get_platform_string "Linux" "x86_64" connector = "linux" ++ connector ++ "x64" ∧
    get_platform_string "Darwin" "x86_64" connector = "macos" ++ connector ++ "x64" ∧
    (machine ≠ "x86_64" →
      get_platform_string "Darwin" machine connector = "macos" ++ connector ++ "arm64") ∧
    get_platform_string "Windows" machine connector = "windows" ++ connector ++ "x64" ∧
    get_platform_string "Microsoft" machine connector = "windows" ++ connector ++ "x64" ∧
    (machine ≠ "x86_64" →
      get_platform_string "Linux" machine connector = "unsupported") ∧
    (system ≠ "Linux" → system ≠ "Darwin" → system ≠ "Windows" → system ≠ "Microsoft" →
      get_platform_string system machine connector = "unsupported") := by
  refine ⟨rfl, rfl, ?_, rfl, rfl, ?_, ?_⟩
  · intro hm
    simp [get_platform_string, hm]
  · intro hm
    simp [get_platform_string, hm]
  · intro h1 h2 h3 h4
    simp [get_platform_string, h1, h2, h3, h4]

/-- Witness for the amended C2 statement at `(Plan9, riscv)`. -/
theorem get_platform_string_spec_witness :
    get_platform_string "Plan9" "riscv" "-" = "unsupported" :=
  (get_platform_string_spec "Plan9" "riscv" "-").2.2.2.2.2.2
    (by decide) (by decide) (by decide) (by decide)

/-- C6: whatever the freeze lines are, a snapshot that
`get_installed_packages` returns holds no entry named `pip`, `wheel`,
`setuptools` or `distribute`. -/
theorem get_installed_packages_excludes (lines : List String)
    (d : List (String × String)) (h : get_installed_packages lines = .ok d) :
    ∀ p ∈ d, p.1 ∉ excludedPackages := by
  refine getInstalledAux_excludes lines [] ?_ d h
  intro p hp
  cases hp

/-- Witness for C6 on a freeze listing that installs `pip` and `numpy`. -/
theorem get_installed_packages_excludes_witness :
    ("numpy", "2.0").1 ∉ excludedPackages :=
  get_installed_packages_excludes ["pip==1.0", "numpy==2.0"] [("numpy", "2.0")]
    rfl ("numpy", "2.0") (by decide)

/-- C8: the proxy resolution errors when no enabled registry entry ends in
`.batoms`, returns the single such entry when exactly one exists, errors
when several exist, and a cached module makes `_load_module` answer
without consulting the registry. -/
theorem find_extension_module_spec (addons : List Addon) :
    (((addons.filter (fun a => strEndsWith a.name ".batoms" && a.loaded_state)).map
        Addon.name) = [] → ∃ e, find_extension_module addons = .error e) ∧
    (∀ m, ((addons.filter (fun a => strEndsWith a.name ".batoms" && a.loaded_state)).map
        Addon.name) = [m] → find_extension_module addons = .ok m) ∧
    (2 ≤ ((addons.filter (fun a => strEndsWith a.name ".batoms" && a.loaded_state)).map
        Addon.name).length → ∃ e, find_extension_module addons = .error e) ∧
    (∀ m reg, load_module (some m) reg = .ok (some m)) ∧
    (∀ reg, load_module none reg = (find_extension_module reg).map some) := by
  refine ⟨?_, ?_, ?_, fun m reg => rfl, fun reg => rfl⟩
  · intro hM
    unfold find_extension_module
    split
    · exact ⟨_, rfl⟩
    · rw [hM]; exact ⟨_, rfl⟩
  · intro m hM
    unfold find_extension_module
    split
    · rename_i hemp
      rw [List.isEmpty_iff] at hemp
      subst hemp
      simp [List.filter] at hM
    · rw [hM]
  · intro h2
    unfold find_extension_module
    split
    · exact ⟨_, rfl⟩
    · rename_i hemp
      cases hM : (addons.filter
          (fun a => strEndsWith a.name ".batoms" && a.loaded_state)).map Addon.name with
      | nil => exact ⟨_, rfl⟩
      | cons m t =>
        cases t with
        | nil => rw [hM] at h2; simp at h2
        | cons m2 t2 => exact ⟨_, rfl⟩

/-- Witness for C8 at a registry with a single enabled `.batoms` entry. -/
theorem find_extension_module_spec_witness :
    find_extension_module [⟨"bl_ext.user_default.batoms", true⟩] =
      .ok "bl_ext.user_default.batoms" :=
  (find_extension_module_spec [⟨"bl_ext.user_default.batoms", true⟩]).2.1
    "bl_ext.user_default.batoms" (by decide)

/-- C10: a command line without the literal `--` makes `main` parse the
empty argument list, so every supplied option is ignored and the argparse
defaults are used; with a `--`, exactly the arguments after the first
`--` are parsed. -/
theorem main_parses_only_after_separator :
    (∀ argv : List String, "--" ∉ argv →
      parse_args (script_args argv) = some defaultArgs) ∧
    (∀ pre post : List String, "--" ∉ pre →
      script_args (pre ++ "--" :: post) = post) := by
  constructor
  · intro argv h
    unfold script_args
    rw [if_neg h]
    rfl
  · intro pre post h
    unfold script_args
    rw [if_pos (List.mem_append.mpr (Or.inr (List.mem_cons_self _ _)))]
    have hidx : (pre ++ "--" :: post).indexOf "--" = pre.length := by
      induction pre with
      | nil => simp [List.indexOf_cons_self]
      | cons x xs ih =>
        have hx : x ≠ "--" := fun e => h (e ▸ List.mem_cons_self x xs)
        have hxs : "--" ∉ xs := fun hmem => h (List.mem_cons_of_mem x hmem)
        simp [List.indexOf_cons, hx, ih hxs]
    rw [hidx]
    have : pre.length + 1 = pre.length + 1 := rfl
    calc (pre ++ "--" :: post).drop (pre.length + 1)
        = ("--" :: post).drop 1 := by simp [List.drop_append]
      _ = post := rfl

/-- Witness for C10 at a command line carrying options but no `--`. -/
theorem main_parses_only_after_separator_witness :
    parse_args (script_args ["blender", "-b", "-P", "build_extension.py",
      "--repo-root", "elsewhere"]) = some defaultArgs :=
  main_parses_only_after_separator.1 _ (by decide)

/-! ## C4, C5: the pyproject rewrite -/

theorem lookupA_setA_self (l : List (String × Toml)) (k : String) (v : Toml) :
    lookupA (setA l k v) k = some v := by
  induction l with
  | nil => simp [setA, lookupA]
  | cons q rest ih =>
    by_cases h : q.1 = k
    · simp [setA, h, lookupA]
    · simp [setA, h, lookupA, ih]

theorem lookupA_setA_ne (l : List (String × Toml)) (k : String) (v : Toml)
    (k' : String) (h : k' ≠ k) : lookupA (setA l k v) k' = lookupA l k' := by
  induction l with
  | nil =>
    simp only [setA, lookupA]
    rw [if_neg (fun e : k = k' => h e.symm)]
  | cons q rest ih =>
    by_cases hq : q.1 = k
    · have hne : ¬ q.1 = k' := fun e => h (e.symm.trans hq)
      simp only [setA, if_pos hq, lookupA, if_neg hne]
    · simp only [setA, if_neg hq, lookupA]
      by_cases hk' : q.1 = k'
      · rw [if_pos hk', if_pos hk']
      · rw [if_neg hk', if_neg hk', ih]

theorem setA_of_lookupA (l : List (String × Toml)) (k : String) (v : Toml)
    (h : lookupA l k = some v) : setA l k v = l := by
  induction l with
  | nil => simp [lookupA] at h
  | cons q rest ih =>
    by_cases hq : q.1 = k
    · simp only [lookupA, if_pos hq] at h
      cases h
      simp only [setA, if_pos hq]
    · simp only [lookupA, if_neg hq] at h
      simp [setA, hq, ih h]

/-- C5: when the `blender-extension` group is missing (also when the
`project` or `optional-dependencies` tables themselves are missing), the
rewrite raises an error and returns no document. -/
theorem pyproject_rewrite_error_when_group_absent (doc : Toml)
    (pkgs : List (String × String)) (h : hasGroup doc = false) :
    ∃ e, generate_updated_pyproject doc pkgs = .error e := by
  cases doc with
  | str s => exact ⟨_, rfl⟩
  | arr l => exact ⟨_, rfl⟩
  | table kvs =>
    cases hp0 : lookupA kvs "project" with
    | none =>
      simp only [generate_updated_pyproject, hp0, Option.getD_none]
      exact ⟨_, rfl⟩
    | some projVal =>
      cases projVal with
      | str s =>
        simp only [generate_updated_pyproject, hp0, Option.getD_some]
        exact ⟨_, rfl⟩
      | arr l =>
        simp only [generate_updated_pyproject, hp0, Option.getD_some]
        exact ⟨_, rfl⟩
      | table projKvs =>
        cases ho0 : lookupA projKvs "optional-dependencies" with
        | none =>
          simp only [generate_updated_pyproject, hp0, ho0, Option.getD_some,
            Option.getD_none]
          exact ⟨_, rfl⟩
        | some optVal =>
          cases optVal with
          | str s =>
            simp only [generate_updated_pyproject, hp0, ho0, Option.getD_some]
            exact ⟨_, rfl⟩
          | arr l =>
            simp only [generate_updated_pyproject, hp0, ho0, Option.getD_some]
            exact ⟨_, rfl⟩
          | table optKvs =>
            simp only [hasGroup, hp0, ho0, Option.getD_some] at h
            simp only [generate_updated_pyproject, hp0, ho0, Option.getD_some]
            rw [if_neg (by rw [h]; exact Bool.false_ne_true)]
            exact ⟨_, rfl⟩

/-- Witness for C5 on a document with an empty `optional-dependencies`
table. -/
theorem pyproject_rewrite_error_when_group_absent_witness :
    ∃ e, generate_updated_pyproject
      (Toml.table [("project", Toml.table [("optional-dependencies", Toml.table [])])])
      [("numpy", "2.0")] = .error e :=
  pyproject_rewrite_error_when_group_absent _ _ (by rfl)

/-- C4: when the `blender-extension` group exists, the rewrite succeeds,
the group becomes exactly the `"name==version"` pin list, the rewrite is
idempotent, and a key path that neither extends nor is extended by
`project.optional-dependencies.blender-extension` resolves to the same
value as in the input document. -/
theorem pyproject_rewrite_spec (doc : Toml) (pkgs : List (String × String))
    (h : hasGroup doc = true) :
    ∃ doc', generate_updated_pyproject doc pkgs = .ok doc' ∧
      lookupPath doc' depGroupPath = some (Toml.arr (pkgPins pkgs)) ∧
      generate_updated_pyproject doc' pkgs = .ok doc' ∧
      ∀ p : List String, leadsTo p depGroupPath = false →
        leadsTo depGroupPath p = false → lookupPath doc' p = lookupPath doc p := by
  cases doc with
  | str s => simp [hasGroup] at h
  | arr l => simp [hasGroup] at h
  | table kvs =>
    cases hp0 : lookupA kvs "project" with
    | none => simp [hasGroup, hp0, lookupA] at h
    | some projVal =>
      cases projVal with
      | str s => simp [hasGroup, hp0] at h
      | arr l => simp [hasGroup, hp0] at h
      | table projKvs =>
        cases ho0 : lookupA projKvs "optional-dependencies" with
        | none => simp [hasGroup, hp0, ho0, lookupA] at h
        | some optVal =>
          cases optVal with
          | str s => simp [hasGroup, hp0, ho0] at h
          | arr l => simp [hasGroup, hp0, ho0] at h
          | table optKvs =>
            simp only [hasGroup, hp0, ho0, Option.getD_some] at h
            refine ⟨Toml.table (setA kvs "project"
              (Toml.table (setA projKvs "optional-dependencies"
                (Toml.table (setA optKvs "blender-extension"
                  (Toml.arr (pkgPins pkgs))))))), ?_, ?_, ?_, ?_⟩
            · simp only [generate_updated_pyproject, hp0, ho0, Option.getD_some]
              rw [if_pos h]
            · simp [lookupPath, depGroupPath, lookupA_setA_self]
            · simp only [generate_updated_pyproject, lookupA_setA_self,
                Option.getD_some, Option.isSome_some, if_true]
              rw [setA_of_lookupA _ _ _ (lookupA_setA_self _ _ _)]
              rw [setA_of_lookupA _ _ _ (lookupA_setA_self _ _ _)]
              rw [setA_of_lookupA _ _ _ (lookupA_setA_self _ _ _)]
            · intro p hlead1 hlead2
              match p with
              | [] => simp [leadsTo, depGroupPath] at hlead1
              | k :: p2 =>
                by_cases hk : k = "project"
                · subst hk
                  simp [depGroupPath, leadsTo] at hlead1 hlead2
                  simp only [lookupPath, lookupA_setA_self, hp0]
                  match p2 with
                  | [] => simp [leadsTo] at hlead1
                  | k2 :: p3 =>
                    by_cases hk2 : k2 = "optional-dependencies"
                    · subst hk2
                      simp [leadsTo] at hlead1 hlead2
                      simp only [lookupPath, lookupA_setA_self, ho0]
                      match p3 with
                      | [] => simp [leadsTo] at hlead1
                      | k3 :: p4 =>
                        by_cases hk3 : k3 = "blender-extension"
                        · subst hk3
                          simp [leadsTo] at hlead2
                        · simp only [lookupPath,
                            lookupA_setA_ne _ _ _ _ hk3]
                    · simp only [lookupPath,
                        lookupA_setA_ne _ _ _ _ hk2]
                · simp only [lookupPath, lookupA_setA_ne _ _ _ _ hk, hp0]

/-- Witness for C4 on a small document carrying the group next to other
fields. -/
theorem pyproject_rewrite_spec_witness :
    ∃ doc', generate_updated_pyproject
      (Toml.table [("name", Toml.str "batoms"),
        ("project", Toml.table [("optional-dependencies",
          Toml.table [("blender-extension", Toml.arr [])])])])
      [("numpy", "2.0")] = .ok doc' ∧
      lookupPath doc' depGroupPath = some (Toml.arr (pkgPins [("numpy", "2.0")])) ∧
      generate_updated_pyproject doc' [("numpy", "2.0")] = .ok doc' ∧
      ∀ p : List String, leadsTo p depGroupPath = false →
        leadsTo depGroupPath p = false →
        lookupPath doc' p = lookupPath
          (Toml.table [("name", Toml.str "batoms"),
            ("project", Toml.table [("optional-dependencies",
              Toml.table [("blender-extension", Toml.arr [])])])]) p :=
  pyproject_rewrite_spec _ _ (by rfl)

/-! ## C3: the wheel merge -/

theorem hasFile_copy_step (acc : DirFiles) (w : String × String) (name : String) :
    hasFile (if hasFile acc w.1 then acc else acc ++ [w]) name =
      (hasFile acc name || decide (w.1 = name)) := by
  by_cases hw : hasFile acc w.1 = true
  · rw [if_pos hw]
    by_cases he : w.1 = name
    · rw [← he, hw]
      simp
    · simp [he]
  · rw [if_neg hw]
    simp [hasFile, List.any_append]

theorem hasFile_copy_foldl (l acc : DirFiles) (name : String) :
    hasFile (l.foldl (fun acc w => if hasFile acc w.1 then acc else acc ++ [w]) acc)
      name = (hasFile acc name || hasFile l name) := by
  induction l generalizing acc with
  | nil => simp [hasFile]
  | cons w rest ih =>
    simp only [List.foldl_cons]
    rw [ih, hasFile_copy_step]
    simp [hasFile, Bool.or_assoc]

theorem hasFile_mergeFrom (p e : DirFiles) (name : String) :
    hasFile (mergeFrom p e) name = (hasFile p name || hasFile (whlFiles e) name) :=
  hasFile_copy_foldl (whlFiles e) p name

theorem hasFile_cons (f : String × String) (l : DirFiles) (name : String) :
    hasFile (f :: l) name = (decide (f.1 = name) || hasFile l name) := by
  simp [hasFile]

theorem whlFiles_cons (f : String × String) (rest : DirFiles) :
    whlFiles (f :: rest) =
      if strEndsWith f.1 ".whl" = true then f :: whlFiles rest else whlFiles rest := by
  simp [whlFiles, List.filter_cons]

theorem hasFile_whlFiles (x : DirFiles) (name : String) :
    hasFile (whlFiles x) name = (hasFile x name && strEndsWith name ".whl") := by
  induction x with
  | nil => rfl
  | cons f rest ih =>
    rw [whlFiles_cons]
    by_cases hE : strEndsWith f.1 ".whl" = true
    · rw [if_pos hE, hasFile_cons, hasFile_cons, ih]
      by_cases hfn : f.1 = name
      · subst hfn
        simp [hE]
      · simp [hfn]
    · rw [if_neg hE, ih, hasFile_cons]
      by_cases hfn : f.1 = name
      · subst hfn
        rw [Bool.eq_false_iff.mpr hE]
        simp
      · simp [hfn]

theorem hasFile_mergeFrom_whl (p e : DirFiles) (name : String) :
    hasFile (whlFiles (mergeFrom p e)) name =
      (hasFile (whlFiles p) name || hasFile (whlFiles e) name) := by
  rw [hasFile_whlFiles, hasFile_mergeFrom, hasFile_whlFiles, hasFile_whlFiles]
  cases strEndsWith name ".whl" <;> simp

theorem hasFile_mergeAll_whl (ds : List DirFiles) (p : DirFiles) (name : String) :
    hasFile (whlFiles (ds.foldl mergeFrom p)) name =
      (hasFile (whlFiles p) name || ds.any (fun d => hasFile (whlFiles d) name)) := by
  induction ds generalizing p with
  | nil => simp
  | cons d rest ih =>
    simp only [List.foldl_cons, List.any_cons]
    rw [ih, hasFile_mergeFrom_whl, Bool.or_assoc]

theorem copy_foldl_append (l acc : DirFiles) :
    ∃ t, l.foldl (fun acc w => if hasFile acc w.1 then acc else acc ++ [w]) acc =
      acc ++ t := by
  induction l generalizing acc with
  | nil => exact ⟨[], by simp⟩
  | cons w rest ih =>
    simp only [List.foldl_cons]
    by_cases hw : hasFile acc w.1 = true
    · rw [if_pos hw]
      exact ih acc
    · rw [if_neg hw]
      obtain ⟨t, ht⟩ := ih (acc ++ [w])
      exact ⟨[w] ++ t, by rw [ht, List.append_assoc]⟩

theorem mergeAll_append (ds : List DirFiles) (p : DirFiles) :
    ∃ t, ds.foldl mergeFrom p = p ++ t := by
  induction ds generalizing p with
  | nil => exact ⟨[], by simp⟩
  | cons d rest ih =>
    simp only [List.foldl_cons]
    obtain ⟨u, hu⟩ := copy_foldl_append (whlFiles d) p
    obtain ⟨t, ht⟩ := ih (mergeFrom p d)
    refine ⟨u ++ t, ?_⟩
    rw [ht]
    unfold mergeFrom
    rw [hu, List.append_assoc]

theorem lookupFile_append (p t : DirFiles) (name : String)
    (h : hasFile p name = true) : lookupFile (p ++ t) name = lookupFile p name := by
  induction p with
  | nil => simp [hasFile] at h
  | cons f rest ih =>
    by_cases hf : f.1 = name
    · simp [lookupFile, hf]
    · simp only [hasFile, List.any_cons, Bool.or_eq_true, decide_eq_true_eq] at h
      rcases h with h | h
      · exact absurd h hf
      · simp only [List.cons_append, lookupFile, if_neg hf]
        exact ih h

theorem all_some_eq_map (extras : List (Option DirFiles))
    (h : ∀ x ∈ extras, ∃ d, x = some d) :
    ∃ ds : List DirFiles, extras = ds.map some := by
  induction extras with
  | nil => exact ⟨[], rfl⟩
  | cons x rest ih =>
    obtain ⟨d, hd⟩ := h x (List.mem_cons_self x rest)
    obtain ⟨ds0, hds0⟩ := ih (fun y hy => h y (List.mem_cons_of_mem x hy))
    exact ⟨d :: ds0, by rw [hd, hds0]; rfl⟩

theorem checkExists_map_some (ds : List DirFiles) :
    checkExists (ds.map some) = .ok ds := by
  induction ds with
  | nil => rfl
  | cons d rest ih => simp [checkExists, ih, Except.map]

theorem checkExists_none (extras : List (Option DirFiles)) (h : none ∈ extras) :
    ∃ e, checkExists extras = .error e := by
  induction extras with
  | nil => cases h
  | cons x rest ih =>
    cases x with
    | none => exact ⟨_, rfl⟩
    | some d =>
      have hr : none ∈ rest := by
        rcases List.mem_cons.mp h with h' | h'
        · cases h'
        · exact h'
      obtain ⟨e, he⟩ := ih hr
      exact ⟨e, by simp [checkExists, he, Except.map]⟩

theorem checkExists_ok (extras : List (Option DirFiles)) (ds : List DirFiles)
    (h : checkExists extras = .ok ds) : extras = ds.map some := by
  induction extras generalizing ds with
  | nil =>
    simp only [checkExists] at h
    cases h
    rfl
  | cons x rest ih =>
    cases x with
    | none => simp [checkExists] at h
    | some d =>
      simp only [checkExists] at h
      cases hr : checkExists rest with
      | error e => rw [hr] at h; simp [Except.map] at h
      | ok ds0 =>
        rw [hr] at h
        simp only [Except.map] at h
        cases h
        simp [ih ds0 hr]

theorem checkCounts_all (n : Nat) (ds : List DirFiles)
    (h : ∀ d ∈ ds, (whlFiles d).length = n) : checkCounts n ds = .ok () := by
  induction ds with
  | nil => rfl
  | cons d rest ih =>
    have hd := h d (List.mem_cons_self d rest)
    simp only [checkCounts, hd]
    simp only [ne_eq, not_true_eq_false, if_neg]
    exact ih (fun d' hd' => h d' (List.mem_cons_of_mem d hd'))

theorem checkCounts_mismatch (n : Nat) (ds : List DirFiles)
    (h : ∃ d ∈ ds, (whlFiles d).length ≠ n) : ∃ e, checkCounts n ds = .error e := by
  induction ds with
  | nil => simp at h
  | cons d rest ih =>
    by_cases hd : (whlFiles d).length = n
    · obtain ⟨d', hd', hne⟩ := h
      rcases List.mem_cons.mp hd' with h' | h'
      · subst h'; exact absurd hd hne
      · obtain ⟨e, he⟩ := ih ⟨d', h', hne⟩
        refine ⟨e, ?_⟩
        simp only [checkCounts, hd]
        simpa using he
    · refine ⟨"ValueError: wheel count mismatch", ?_⟩
      simp [checkCounts, hd]

/-- C3: the merge fails, before copying anything, when an extra directory
is missing or its `*.whl` count differs from the primary directory; when
every extra directory exists with a matching count, the merge succeeds,
only appends to the primary directory, the resulting `*.whl` names are
exactly the union of the individual directories' `*.whl` names, and the
content recorded for a name already in the primary directory is the
primary one. -/
theorem merge_wheels_spec (primary : DirFiles) (extras : List (Option DirFiles)) :
    ((none ∈ extras ∨
        ∃ d, some d ∈ extras ∧ (whlFiles d).length ≠ (whlFiles primary).length) →
      ∃ e, merge_wheels primary extras = .error e) ∧
    ((∀ x ∈ extras, ∃ d, x = some d ∧
        (whlFiles d).length = (whlFiles primary).length) →
      ∃ r, merge_wheels primary extras = .ok r ∧
        (∃ t, r = primary ++ t) ∧
        (∀ name, hasFile (whlFiles r) name = true ↔
          hasFile (whlFiles primary) name = true ∨
            ∃ d, some d ∈ extras ∧ hasFile (whlFiles d) name = true) ∧
        (∀ name, hasFile primary name = true →
          lookupFile r name = lookupFile primary name)) := by
  constructor
  · intro h
    rcases h with h | ⟨d, hd, hne⟩
    · obtain ⟨e, he⟩ := checkExists_none extras h
      exact ⟨e, by simp [merge_wheels, he]⟩
    · cases hce : checkExists extras with
      | error e => exact ⟨e, by simp [merge_wheels, hce]⟩
      | ok ds =>
        have hmap := checkExists_ok extras ds hce
        have hmem : d ∈ ds := by
          rw [hmap] at hd
          obtain ⟨d', hd', he⟩ := List.mem_map.mp hd
          cases he
          exact hd'
        obtain ⟨e, he⟩ := checkCounts_mismatch (whlFiles primary).length ds ⟨d, hmem, hne⟩
        exact ⟨e, by simp [merge_wheels, hce, he]⟩
  · intro h
    have hsome : ∀ x ∈ extras, ∃ d, x = some d := by
      intro x hx
      obtain ⟨d, hd, _⟩ := h x hx
      exact ⟨d, hd⟩
    obtain ⟨ds, hds⟩ := all_some_eq_map extras hsome
    subst hds
    have hcnt : ∀ d ∈ ds, (whlFiles d).length = (whlFiles primary).length := by
      intro d hd
      obtain ⟨d', hd', hlen⟩ := h (some d) (List.mem_map_of_mem some hd)
      cases hd'
      exact hlen
    refine ⟨ds.foldl mergeFrom primary, ?_, mergeAll_append ds primary, ?_, ?_⟩
    · simp [merge_wheels, checkExists_map_some, checkCounts_all _ _ hcnt]
    · intro name
      rw [hasFile_mergeAll_whl]
      simp only [Bool.or_eq_true, List.any_eq_true, List.mem_map, Option.some.injEq]
      constructor
      · rintro (hp | ⟨d, hd, hf⟩)
        · exact Or.inl hp
        · exact Or.inr ⟨d, ⟨d, hd, rfl⟩, hf⟩
      · rintro (hp | ⟨d, ⟨d2, hd2, he⟩, hf⟩)
        · exact Or.inl hp
        · subst he
          exact Or.inr ⟨d2, hd2, hf⟩
    · intro name hname
      obtain ⟨t, ht⟩ := mergeAll_append ds primary
      rw [ht]
      exact lookupFile_append primary t name hname

/-- Witness for C3: one existing extra directory with a matching count
merges, one missing extra directory fails. -/
theorem merge_wheels_spec_witness :
    (∃ r, merge_wheels [("a.whl", "x")] [some [("c.whl", "y")]] = .ok r ∧
      (∃ t, r = [("a.whl", "x")] ++ t) ∧
      (∀ name, hasFile (whlFiles r) name = true ↔
        hasFile (whlFiles [("a.whl", "x")]) name = true ∨
          ∃ d, some d ∈ [some [("c.whl", "y")]] ∧ hasFile (whlFiles d) name = true) ∧
      (∀ name, hasFile [("a.whl", "x")] name = true →
        lookupFile r name = lookupFile [("a.whl", "x")] name)) ∧
    (∃ e, merge_wheels [("b.whl", "x")] [none] = .error e) :=
  ⟨(merge_wheels_spec [("a.whl", "x")] [some [("c.whl", "y")]]).2 (by decide),
   (merge_wheels_spec [("b.whl", "x")] [none]).1 (Or.inl (by decide))⟩

/-! ## C7: the directory lifecycle -/

theorem leadsTo_refl (a : List String) : leadsTo a a = true := by
  induction a with
  | nil => rfl
  | cons x xs ih => simp [leadsTo, ih]

theorem leadsTo_trans {a b c : List String} (h1 : leadsTo a b = true)
    (h2 : leadsTo b c = true) : leadsTo a c = true := by
  induction a generalizing b c with
  | nil => rfl
  | cons x xs ih =>
    cases b with
    | nil => simp [leadsTo] at h1
    | cons y ys =>
      cases c with
      | nil => simp [leadsTo] at h2
      | cons z zs =>
        simp only [leadsTo, Bool.and_eq_true, decide_eq_true_eq] at h1 h2 ⊢
        exact ⟨h1.1.trans h2.1, ih h1.2 h2.2⟩

theorem leadsTo_antisymm {a b : List String} (h1 : leadsTo a b = true)
    (h2 : leadsTo b a = true) : a = b := by
  induction a generalizing b with
  | nil =>
    cases b with
    | nil => rfl
    | cons y ys => simp [leadsTo] at h2
  | cons x xs ih =>
    cases b with
    | nil => simp [leadsTo] at h1
    | cons y ys =>
      simp only [leadsTo, Bool.and_eq_true, decide_eq_true_eq] at h1 h2
      rw [h1.1, ih h1.2 h2.2]

theorem leadsTo_take (d : List String) (n : Nat) : leadsTo (d.take n) d = true := by
  induction d generalizing n with
  | nil => simp [leadsTo]
  | cons x xs ih =>
    cases n with
    | zero => rfl
    | succ m => simp [leadsTo, ih]

theorem eq_take_of_leadsTo {q p : List String} (h : leadsTo q p = true) :
    q = p.take q.length ∧ q.length ≤ p.length := by
  induction q generalizing p with
  | nil => simp
  | cons x xs ih =>
    cases p with
    | nil => simp [leadsTo] at h
    | cons y ys =>
      simp only [leadsTo, Bool.and_eq_true, decide_eq_true_eq] at h
      obtain ⟨ht, hl⟩ := ih h.2
      refine ⟨?_, by simpa using hl⟩
      simp [List.take, h.1, ← ht]

theorem mem_initsNE {q d : List String} :
    q ∈ initsNE d ↔ (q ≠ [] ∧ leadsTo q d = true) := by
  constructor
  · intro hq
    obtain ⟨i, hi, he⟩ := List.mem_map.mp hq
    have hi' := List.mem_range.mp hi
    subst he
    constructor
    · have : (d.take (i + 1)).length = i + 1 := by
        rw [List.length_take]
        omega
      intro hnil
      rw [hnil] at this
      simp at this
    · exact leadsTo_take d (i + 1)
  · rintro ⟨hne, hlead⟩
    obtain ⟨ht, hl⟩ := eq_take_of_leadsTo hlead
    have hpos : 1 ≤ q.length := by
      cases q with
      | nil => exact absurd rfl hne
      | cons x xs => simp
    refine List.mem_map.mpr ⟨q.length - 1, List.mem_range.mpr (by omega), ?_⟩
    rw [Nat.sub_add_cancel hpos, ← ht]

theorem mem_any_self {fs : Fs} {d : FsPath} :
    fs.any (fun p => p = d) = true ↔ d ∈ fs := by
  simp only [List.any_eq_true, decide_eq_true_eq]
  constructor
  · rintro ⟨p, hp, he⟩
    exact he ▸ hp
  · intro h
    exact ⟨d, h, rfl⟩

theorem dirEmpty_iff {fs : Fs} {d : FsPath} :
    dirEmpty fs d = true ↔ ∀ p ∈ fs, leadsTo d p = true → p = d := by
  simp only [dirEmpty, List.all_eq_true, Bool.or_eq_true, decide_eq_true_eq,
    Bool.not_eq_true']
  constructor
  · intro h p hp hl
    rcases h p hp with h' | h'
    · exact h'
    · rw [hl] at h'
      cases h'
  · intro h p hp
    by_cases hl : leadsTo d p = true
    · exact Or.inl (h p hp hl)
    · exact Or.inr (Bool.eq_false_iff.mpr hl)

theorem clearOne_good {fs : Fs} {d : FsPath} (hC : FsClosed fs) (hne : d ≠ []) :
    GoodDir (clearOne fs d) d := by
  constructor
  · refine List.mem_append.mpr (Or.inr ?_)
    exact mem_initsNE.mpr ⟨hne, leadsTo_refl d⟩
  · intro p hp hl
    rcases List.mem_append.mp hp with hp | hp
    · by_cases hd : fs.any (fun q => q = d) = true
      · rw [if_pos hd] at hp
        obtain ⟨hpf, hpred⟩ := List.mem_filter.mp hp
        rw [hl] at hpred
        cases hpred
      · rw [if_neg hd] at hp
        have : d ∈ fs := hC p hp d hl hne
        exact absurd (mem_any_self.mpr this) hd
    · have := (mem_initsNE.mp hp).2
      exact leadsTo_antisymm this hl

theorem clearOne_closed {fs : Fs} {d : FsPath} (hC : FsClosed fs) :
    FsClosed (clearOne fs d) := by
  intro p hp q hq hqne
  rcases List.mem_append.mp hp with hp | hp
  · refine List.mem_append.mpr (Or.inl ?_)
    by_cases hd : fs.any (fun r => r = d) = true
    · rw [if_pos hd] at hp ⊢
      obtain ⟨hpf, hpred⟩ := List.mem_filter.mp hp
      refine List.mem_filter.mpr ⟨hC p hpf q hq hqne, ?_⟩
      simp only [Bool.not_eq_true'] at hpred ⊢
      by_cases hdq : leadsTo d q = true
      · exact absurd (leadsTo_trans hdq hq) (Bool.eq_false_iff.mp hpred)
      · exact Bool.eq_false_iff.mpr hdq
    · rw [if_neg hd] at hp ⊢
      exact hC p hp q hq hqne
  · refine List.mem_append.mpr (Or.inr ?_)
    have hlp := (mem_initsNE.mp hp).2
    exact mem_initsNE.mpr ⟨hqne, leadsTo_trans hq hlp⟩

theorem clearOne_preserves {fs : Fs} {d d' : FsPath} (hG : GoodDir fs d)
    (hC : FsClosed fs) (hne : d ≠ [])
    (hsep : d' = d ∨ (leadsTo d' d = false ∧ leadsTo d d' = false)) :
    GoodDir (clearOne fs d') d := by
  rcases hsep with rfl | ⟨hs1, hs2⟩
  · exact clearOne_good hC hne
  · constructor
    · refine List.mem_append.mpr (Or.inl ?_)
      by_cases hd' : fs.any (fun q => q = d') = true
      · rw [if_pos hd']
        refine List.mem_filter.mpr ⟨hG.1, ?_⟩
        simp [hs1]
      · rw [if_neg hd']
        exact hG.1
    · intro p hp hl
      rcases List.mem_append.mp hp with hp | hp
      · by_cases hd' : fs.any (fun q => q = d') = true
        · rw [if_pos hd'] at hp
          exact hG.2 p (List.mem_filter.mp hp).1 hl
        · rw [if_neg hd'] at hp
          exact hG.2 p hp hl
      · have hpd' := (mem_initsNE.mp hp).2
        have : leadsTo d d' = true := leadsTo_trans hl hpd'
        rw [this] at hs2
        cases hs2

theorem clear_dirs_keeps_good {rest : List FsPath} {fs : Fs} {d : FsPath}
    (hG : GoodDir fs d) (hC : FsClosed fs) (hne : d ≠ [])
    (hsep : ∀ d' ∈ rest, d' = d ∨ (leadsTo d' d = false ∧ leadsTo d d' = false)) :
    GoodDir (clear_dirs fs rest) d := by
  induction rest generalizing fs with
  | nil => exact hG
  | cons d' rest2 ih =>
    have h1 : GoodDir (clearOne fs d') d :=
      clearOne_preserves hG hC hne (hsep d' (List.mem_cons_self d' rest2))
    exact ih h1 (clearOne_closed hC)
      (fun d2 hd2 => hsep d2 (List.mem_cons_of_mem d' hd2))

/-- C7 (counterexample): on an empty file system, clearing the nested list
`[a, a/b]` completes, yet afterwards the listed directory `a` exists but
is not empty — it contains `a/b`. -/
theorem clear_dirs_claim_false :
    ["a"] ∈ clear_dirs [] [["a"], ["a", "b"]] ∧
    dirEmpty (clear_dirs [] [["a"], ["a", "b"]]) ["a"] = false := by
  constructor
  · decide
  · decide

/-- C7 (amended): provided the listed paths are nonempty and none is a
strict initial segment of another, and the prior file system is closed
under taking ancestors, each listed directory exists and is empty after
`clear_dirs`. -/
theorem clear_dirs_spec (fs : Fs) (dirs : List FsPath) (hC : FsClosed fs)
    (hne : ∀ d ∈ dirs, d ≠ [])
    (hN : ∀ d1 ∈ dirs, ∀ d2 ∈ dirs, leadsTo d1 d2 = true → d1 = d2) :
    ∀ d ∈ dirs, d ∈ clear_dirs fs dirs ∧ dirEmpty (clear_dirs fs dirs) d = true := by
  induction dirs generalizing fs with
  | nil => intro d hd; cases hd
  | cons d0 rest ih =>
    intro d hd
    have hstep : clear_dirs fs (d0 :: rest) = clear_dirs (clearOne fs d0) rest := by
      simp [clear_dirs]
    rw [hstep]
    rcases List.mem_cons.mp hd with rfl | hd
    · have hG0 : GoodDir (clearOne fs d) d :=
        clearOne_good hC (hne d (List.mem_cons_self d rest))
      have hsep : ∀ d' ∈ rest, d' = d ∨
          (leadsTo d' d = false ∧ leadsTo d d' = false) := by
        intro d' hd'
        by_cases he : d' = d
        · exact Or.inl he
        · refine Or.inr ⟨?_, ?_⟩
          · by_cases hl : leadsTo d' d = true
            · exact absurd (hN d' (List.mem_cons_of_mem d hd') d
                (List.mem_cons_self d rest) hl) he
            · exact Bool.eq_false_iff.mpr hl
          · by_cases hl : leadsTo d d' = true
            · exact absurd (hN d (List.mem_cons_self d rest) d'
                (List.mem_cons_of_mem d hd') hl).symm he
            · exact Bool.eq_false_iff.mpr hl
      have hG : GoodDir (clear_dirs (clearOne fs d) rest) d :=
        clear_dirs_keeps_good hG0 (clearOne_closed hC)
          (hne d (List.mem_cons_self d rest)) hsep
      exact ⟨hG.1, dirEmpty_iff.mpr hG.2⟩
    · exact ih (clearOne fs d0) (clearOne_closed hC)
        (fun d' hd' => hne d' (List.mem_cons_of_mem d0 hd'))
        (fun d1 hd1 d2 hd2 hl => hN d1 (List.mem_cons_of_mem d0 hd1)
          d2 (List.mem_cons_of_mem d0 hd2) hl) d hd

/-- Witness for the amended C7 on an empty file system and two disjoint
directories. -/
theorem clear_dirs_spec_witness :
    ["build"] ∈ clear_dirs [] [["build"], ["export"]] ∧
    dirEmpty (clear_dirs [] [["build"], ["export"]]) ["build"] = true :=
  clear_dirs_spec [] [["build"], ["export"]]
    (fun p hp => absurd hp (List.not_mem_nil p))
    (by decide) (by decide) ["build"] (by decide)

/-! ## C1, C9: the main pipeline -/

/-- C1 (counterexample): with `--only-compress-wheels` set and one extra
wheels directory supplied, the run does clear the directories, copy the
source and build the wheels, and only then aborts with the usage error —
the flag combination is not rejected before build work begins. -/
theorem main_usage_error_after_build_steps :
    Ev.clearDirs ∈ (runMain
      ⟨"Linux", "x86_64", true, [("a.whl", "x")],
        fun d => if d = "extra" then some [("b.whl", "y")] else none⟩
      ⟨".", "pyproject.toml", "blender_manifest.toml", none, none, none,
        some ["extra"], true⟩).1 ∧
    runMain
      ⟨"Linux", "x86_64", true, [("a.whl", "x")],
        fun d => if d = "extra" then some [("b.whl", "y")] else none⟩
      ⟨".", "pyproject.toml", "blender_manifest.toml", none, none, none,
        some ["extra"], true⟩ =
      ([Ev.clearDirs, Ev.copySource, Ev.buildWheels],
        .error "ValueError: only_compress_wheels should only be performed when no extra wheels are provided.") := by
  constructor
  · left
  · rfl

/-- C1 (amended): the combination of `--only-compress-wheels` with a
nonempty extra-wheels list is rejected as a usage error and nothing is
compressed, assembled, or written to the manifest — but the rejection
happens only after directory clearing, source copying and wheel building
(including the merge) have already run. -/
theorem main_rejects_flags_after_build (env : Env) (a : Args) (l : List String)
    (w : DirFiles) (h1 : a.only_compress_wheels = true)
    (h2 : a.extra_wheels = some l) (h3 : l ≠ []) (h4 : env.srcExists = true)
    (h5 : merge_wheels env.builtWheels (l.map env.dirContents) = .ok w) :
    runMain env a = ([Ev.clearDirs, Ev.copySource, Ev.buildWheels],
      .error "ValueError: only_compress_wheels should only be performed when no extra wheels are provided.") := by
  unfold runMain
  rw [h4, h2]
  simp only [Option.getD_some]
  rw [h5]
  simp only [h1, if_true]
  rw [if_pos (List.length_pos.mpr h3)]
  rfl

/-- Witness for the amended C1 on a concrete two-wheel build with one
extra directory. -/
theorem main_rejects_flags_after_build_witness :
    runMain
      ⟨"Linux", "x86_64", true, [("a.whl", "x"), ("c.whl", "z")],
        fun d => if d = "extra" then some [("b.whl", "y"), ("c.whl", "w")] else none⟩
      ⟨".", "pyproject.toml", "blender_manifest.toml", none, none, none,
        some ["extra"], true⟩ =
      ([Ev.clearDirs, Ev.copySource, Ev.buildWheels],
        .error "ValueError: only_compress_wheels should only be performed when no extra wheels are provided.") :=
  main_rejects_flags_after_build _ _ ["extra"]
    [("a.whl", "x"), ("c.whl", "z"), ("b.whl", "y")]
    rfl rfl (by decide) rfl (by rfl)

/-- C9: a compress-only run with no extra wheels succeeds, leaving in the
export directory exactly one archive, named with the platform string and
holding the whole wheel directory; the manifest update and the host
assembler never run; and `compress_wheels` on a missing wheel directory
fails with the file-not-found error. -/
theorem main_compress_only_spec (env : Env) (a : Args)
    (h1 : a.only_compress_wheels = true) (h2 : a.extra_wheels.getD [] = [])
    (h3 : env.srcExists = true) :
    runMain env a = ([Ev.clearDirs, Ev.copySource, Ev.buildWheels, Ev.compressWheels],
      .ok ⟨env.builtWheels, [(zipName env, env.builtWheels)]⟩) ∧
    Ev.updateManifest ∉ (runMain env a).1 ∧
    Ev.buildExt ∉ (runMain env a).1 ∧
    compress_wheels env none =
      .error "FileNotFoundError: No wheels found in build directory." := by
  have hrm : runMain env a =
      ([Ev.clearDirs, Ev.copySource, Ev.buildWheels, Ev.compressWheels],
        .ok ⟨env.builtWheels, [(zipName env, env.builtWheels)]⟩) := by
    unfold runMain
    rw [h3, h2]
    have hm : merge_wheels env.builtWheels ([].map env.dirContents) =
        .ok env.builtWheels := rfl
    rw [hm]
    simp only [h1, if_true, List.length_nil, gt_iff_lt, Nat.lt_irrefl, if_false]
    rfl
  refine ⟨hrm, ?_, ?_, rfl⟩
  · rw [hrm]
    show Ev.updateManifest ∉ [Ev.clearDirs, Ev.copySource, Ev.buildWheels, Ev.compressWheels]
    decide
  · rw [hrm]
    show Ev.buildExt ∉ [Ev.clearDirs, Ev.copySource, Ev.buildWheels, Ev.compressWheels]
    decide

/-- Witness for C9 on a one-wheel build. -/
theorem main_compress_only_spec_witness :
    runMain ⟨"Linux", "x86_64", true, [("a.whl", "x")], fun _ => none⟩
      ⟨".", "pyproject.toml", "blender_manifest.toml", none, none, none,
        none, true⟩ =
      ([Ev.clearDirs, Ev.copySource, Ev.buildWheels, Ev.compressWheels],
        .ok ⟨[("a.whl", "x")],
          [("batoms-wheels-linux_x64.zip", [("a.whl", "x")])]⟩) :=
  (main_compress_only_spec
    ⟨"Linux", "x86_64", true, [("a.whl", "x")], fun _ => none⟩
    ⟨".", "pyproject.toml", "blender_manifest.toml", none, none, none,
      none, true⟩ rfl rfl rfl).1

end BuildExt
